import Mathlib

/-!
Shallow embedding of the MorphStorm client (src/js/crypto.js): the RTC
mesh manager (peer session table, key exchange over the data channel,
send/broadcast/disconnect) and the signaling client's bounded
reconnection loop.

Modelling conventions:
* the JavaScript `Map` of peers becomes an association list
  `List (String × Peer)` with JS Map semantics (`mget`, `mset`,
  `mdelete`);
* every observable effect is recorded in a log inside `RTCState`:
  events emitted on the event bus (`events`), ciphertexts handed to a
  data channel (`transmitted`), signals sent through the signaling
  channel (`signalsOut`), and calls into the transport objects
  (`externCalls`);
* the external providers (Web Crypto key derivation, AES-GCM
  encryption and decryption, JSON serialization, and whether a data
  channel accepts a frame without throwing) are oracle functions
  bundled in an `Env` and passed explicitly; key material and SDP
  blobs are opaque naturals.
-/

namespace Morph

/-- Application message envelope, the object handed to broadcast and
serialized before encryption: { text, time, kind }. -/
structure MessageEnvelope where
  text : String
  time : Nat
  kind : String
  deriving Repr, DecidableEq

/-- readyState of an RTCDataChannel. -/
inductive ReadyState where
  | connecting
  | opened
  | closing
  | closed
  deriving Repr, DecidableEq

/-- The state strings the source stores in a peer record:
'connecting', 'open' (data channel open), 'encrypted'. -/
inductive ConnState where
  | connecting
  | chanOpen
  | encrypted
  deriving Repr, DecidableEq

/-- Events emitted on the MorphRTC event bus. -/
inductive Event where
  | peerConnected (peerId name : String)
  | peerEncrypted (peerId name : String)
  | peerDisconnected (peerId name : String)
  | message (fromPeerId fromName : String) (env : MessageEnvelope)
  deriving Repr, DecidableEq

/-- Calls made into the transport provider's objects
(RTCPeerConnection methods), recorded for observability. -/
inductive ExternCall where
  | setRemoteDescription (peerId : String)
  | addIceCandidate (peerId : String)
  | closeConn (peerId : String)
  deriving Repr, DecidableEq

/-- Signals sent back through the signaling channel. -/
inductive OutSig where
  | answerSig (sdp : Nat)
  deriving Repr, DecidableEq

/-- One peer session record, as built in connectToPeer / the offer
branch of handleSignal: { connection, dataChannel, sharedKey, name,
state, isInitiator, pendingMessages }.  The connection handle itself
is external; calls on it are logged in `ExternCall`. -/
structure Peer where
  dataChannel : Option ReadyState
  sharedKey : Option Nat
  name : String
  state : ConnState
  isInitiator : Bool
  pendingMessages : List MessageEnvelope
  deriving Repr, DecidableEq

/-- JS Map.get: first (unique) entry with the given key. -/
def mget : List (String × Peer) → String → Option Peer
  | [], _ => none
  | e :: rest, k => if e.1 = k then some e.2 else mget rest k

/-- JS Map.set: update in place if the key is present (keeping its
insertion position), else append. -/
def mset : List (String × Peer) → String → Peer → List (String × Peer)
  | [], k, v => [(k, v)]
  | e :: rest, k, v => if e.1 = k then (e.1, v) :: rest else e :: mset rest k v

/-- JS Map.delete: remove the entry with the given key (keys are
unique in a Map, so removing every occurrence agrees with it). -/
def mdelete : List (String × Peer) → String → List (String × Peer)
  | [], _ => []
  | e :: rest, k => if e.1 = k then mdelete rest k else e :: mdelete rest k

/-- Whole observable state of the MorphRTC module: the peers table
plus the logs of effects performed so far. -/
structure RTCState where
  peers : List (String × Peer)
  events : List Event
  transmitted : List (String × String)
  signalsOut : List (String × OutSig)
  externCalls : List ExternCall
  deriving Repr, DecidableEq

/-- Oracles for the external providers.
`derive pk` is MorphCrypto.completeKeyExchange(myKeyPair, pk): `none`
models the import/derive throwing (KeyExchangeFailure).
`enc k pt` is MorphCrypto.encrypt (the random IV folded into the
oracle), `dec k ct` is MorphCrypto.decrypt with `none` on
authentication failure.  `ser` is JSON.stringify of a message object,
`parse` is JSON.parse of a decrypted string (`none` when it throws).
`txOk ct` tells whether dataChannel.send(ct) succeeds rather than
throwing. -/
structure Env where
  derive : Nat → Option Nat
  enc : Nat → String → String
  dec : Nat → String → Option String
  ser : MessageEnvelope → String
  parse : String → Option MessageEnvelope
  txOk : String → Bool

/-- sendToPeer(peerId, messageObj): absent peer returns false; a peer
without a shared key gets the message queued (return true); with a
shared key, a channel that is missing or not open returns false;
otherwise the serialized message is encrypted and handed to the
channel, returning true, or false when encrypt/send throws. -/
def sendToPeer (E : Env) (s : RTCState) (peerId : String)
    (msg : MessageEnvelope) : RTCState × Bool :=
  match mget s.peers peerId with
  | none => (s, false)
  | some peer =>
    match peer.sharedKey with
    | none =>
        let p1 : Peer := { peer with pendingMessages := peer.pendingMessages ++ [msg] }
        ({ s with peers := mset s.peers peerId p1 }, true)
    | some key =>
        if peer.dataChannel = some ReadyState.opened then
          let ct := E.enc key (E.ser msg)
          if E.txOk ct then
            ({ s with transmitted := s.transmitted ++ [(peerId, ct)] }, true)
          else (s, false)
        else (s, false)

/-- Sequential sendToPeer for a list of messages, keeping only the
state: this is both the flush loop inside the key-exchange branch of
handleSignal and the effect of a caller submitting messages one after
another. -/
def sendEach (E : Env) (pid : String) (msgs : List MessageEnvelope)
    (s : RTCState) : RTCState :=
  msgs.foldl (fun acc mm => (sendToPeer E acc pid mm).1) s

/-- The key-exchange branch of handleSignal: if the peer exists and
the signal carries a public key, derive the shared key (a derivation
failure is caught and changes nothing), install it, mark the session
encrypted, emit peer-encrypted, send every pending message in order,
then clear the pending queue on whatever record the table now holds. -/
def handleKeyExchange (E : Env) (s : RTCState) (fromPeerId : String)
    (pub : Option Nat) : RTCState :=
  match mget s.peers fromPeerId, pub with
  | some peer, some pk =>
      (match E.derive pk with
       | none => s
       | some k =>
           let p1 : Peer := { peer with sharedKey := some k, state := ConnState.encrypted }
           let s1 : RTCState :=
             { s with peers := mset s.peers fromPeerId p1,
                      events := s.events ++ [Event.peerEncrypted fromPeerId peer.name] }
           let s2 := sendEach E fromPeerId p1.pendingMessages s1
           match mget s2.peers fromPeerId with
           | none => s2
           | some p2 =>
               let p3 : Peer := { p2 with pendingMessages := [] }
               { s2 with peers := mset s2.peers fromPeerId p3 })
  | _, _ => s

/-- The signals handleSignal receives (via the signaling channel, or
re-packed from a control frame on the data channel).  Payload fields
that JavaScript tests for truthiness are Options. -/
inductive Signal where
  | offer (sdp : Nat)
  | answer (sdp : Nat)
  | iceCandidate (candidate : Option Nat)
  | keyExchange (publicKey : Option Nat)
  deriving Repr, DecidableEq

/-- handleSignal(fromPeerId, fromPeerName, signal).  The offer branch
creates a fresh non-initiator record (overwriting any existing entry,
as Map.set does), applies the remote description and answers; the
answer and ice-candidate branches only act on the transport object of
an existing peer; the key-exchange branch derives the shared key,
marks the session encrypted, emits peer-encrypted, flushes the
pending queue through sendToPeer and then clears it.  A derivation
failure is caught: nothing changes. -/
def handleSignal (E : Env) (s : RTCState) (fromPeerId fromPeerName : String)
    (sig : Signal) : RTCState :=
  match sig with
  | Signal.offer sdp =>
      let p : Peer :=
        { dataChannel := none, sharedKey := none, name := fromPeerName,
          state := ConnState.connecting, isInitiator := false,
          pendingMessages := [] }
      { s with peers := mset s.peers fromPeerId p,
               externCalls := s.externCalls ++ [ExternCall.setRemoteDescription fromPeerId],
               signalsOut := s.signalsOut ++ [(fromPeerId, OutSig.answerSig sdp)] }
  | Signal.answer _ =>
      match mget s.peers fromPeerId with
      | none => s
      | some _ =>
          { s with externCalls := s.externCalls ++ [ExternCall.setRemoteDescription fromPeerId] }
  | Signal.iceCandidate cand =>
      match mget s.peers fromPeerId, cand with
      | some _, some _ =>
          { s with externCalls := s.externCalls ++ [ExternCall.addIceCandidate fromPeerId] }
      | _, _ => s
  | Signal.keyExchange pub => handleKeyExchange E s fromPeerId pub

/-- An incoming frame on a data channel, after the tagged-envelope
test in dc.onmessage: either a parsed key-exchange control frame or
raw (expected-ciphertext) data. -/
inductive Frame where
  | control (publicKey : Option Nat)
  | appData (raw : String)
  deriving Repr, DecidableEq

/-- dc.onmessage: unknown peer is ignored; a control frame is routed
to handleSignal as a key-exchange signal; application data is dropped
when no shared key is installed, dropped (logged) when decryption or
JSON parsing fails, and otherwise emitted as a message event. -/
def onDataMessage (E : Env) (s : RTCState) (peerId : String) (f : Frame) : RTCState :=
  match mget s.peers peerId with
  | none => s
  | some peer =>
    match f with
    | Frame.control pub => handleSignal E s peerId peer.name (Signal.keyExchange pub)
    | Frame.appData raw =>
      match peer.sharedKey with
      | none => s
      | some k =>
        match E.dec k raw with
        | none => s
        | some pt =>
          match E.parse pt with
          | none => s
          | some msg =>
            { s with events := s.events ++ [Event.message peerId peer.name msg] }

/-- handlePeerDisconnect(peerId): when the peer is present, close its
connection, delete it from the table and emit exactly one
peer-disconnected event; otherwise do nothing. -/
def handlePeerDisconnect (s : RTCState) (peerId : String) : RTCState :=
  match mget s.peers peerId with
  | none => s
  | some peer =>
      { s with peers := mdelete s.peers peerId,
               events := s.events ++ [Event.peerDisconnected peerId peer.name],
               externCalls := s.externCalls ++ [ExternCall.closeConn peerId] }

/-- disconnectPeer(peerId) just delegates to handlePeerDisconnect. -/
def disconnectPeer (s : RTCState) (peerId : String) : RTCState :=
  handlePeerDisconnect s peerId

/-- disconnectAll(): run handlePeerDisconnect over the current keys,
then clear the table. -/
def disconnectAll (s : RTCState) : RTCState :=
  let s1 := (s.peers.map Prod.fst).foldl handlePeerDisconnect s
  { s1 with peers := [] }

/-- One iteration of the broadcast loop: send to this peer and push
the outcome onto the results vector. -/
def bstep (E : Env) (msg : MessageEnvelope) (acc : RTCState × List Bool)
    (pid : String) : RTCState × List Bool :=
  let r := sendToPeer E acc.1 pid msg
  (r.1, acc.2 ++ [r.2])

/-- broadcast(messageObj): fold sendToPeer over the current keys,
collecting one Boolean outcome per session. -/
def broadcast (E : Env) (s : RTCState) (msg : MessageEnvelope) :
    RTCState × List Bool :=
  (s.peers.map Prod.fst).foldl (bstep E msg) (s, [])

/-- The outcome sendToPeer reports for a present session, read off
from that session's record alone: accepted-but-queued (true) when no
shared key is set, otherwise success exactly when the channel is open
and the transport accepts the frame. -/
def sendOutcome (E : Env) (msg : MessageEnvelope) (p : Peer) : Bool :=
  match p.sharedKey with
  | none => true
  | some k =>
      if p.dataChannel = some ReadyState.opened then E.txOk (E.enc k (E.ser msg))
      else false

/-- The transmit-log record a single sendToPeer call appends for a
present table entry, if any: only a keyed session with an open
channel whose send is accepted transmits. -/
def txRecord (E : Env) (msg : MessageEnvelope) (e : String × Peer) :
    Option (String × String) :=
  match e.2.sharedKey with
  | none => none
  | some k =>
      if e.2.dataChannel = some ReadyState.opened then
        (if E.txOk (E.enc k (E.ser msg)) then some (e.1, E.enc k (E.ser msg)) else none)
      else none

/-- One roster entry of getPeerList. -/
structure PeerInfo where
  id : String
  name : String
  state : ConnState
  encrypted : Bool
  deriving Repr, DecidableEq

/-- getPeerList(): snapshot { id, name, state, encrypted: !!sharedKey }
for every session. -/
def getPeerList (s : RTCState) : List PeerInfo :=
  s.peers.map (fun e =>
    { id := e.1, name := e.2.name, state := e.2.state,
      encrypted := e.2.sharedKey.isSome })

/-! Signaling client reconnection (MorphSignaling). -/

/-- MAX_RECONNECT from the signaling client. -/
def MAX_RECONNECT : Nat := 5

/-- RECONNECT_DELAY (milliseconds) from the signaling client. -/
def RECONNECT_DELAY : Nat := 3000

/-- Status states the signaling client emits. -/
inductive SigStatus where
  | connecting
  | connected
  | disconnected
  | errorStatus
  | failed
  deriving Repr, DecidableEq

/-- State of the reconnection loop: the attempt counter plus logs of
emitted status events and of the delays of scheduled reconnect
timers. -/
structure SigState where
  reconnectAttempts : Nat
  statuses : List SigStatus
  scheduled : List Nat
  deriving Repr, DecidableEq

/-- attemptReconnect(): at the bound, emit the failed status and stop;
otherwise bump the counter and schedule a reconnect after
RECONNECT_DELAY. -/
def attemptReconnect (g : SigState) : SigState :=
  if MAX_RECONNECT ≤ g.reconnectAttempts then
    { g with statuses := g.statuses ++ [SigStatus.failed] }
  else
    { g with reconnectAttempts := g.reconnectAttempts + 1,
             scheduled := g.scheduled ++ [RECONNECT_DELAY] }

/-- Fresh signaling state right after a successful connect (the
onopen handler resets reconnectAttempts to 0). -/
def sigInit : SigState :=
  { reconnectAttempts := 0, statuses := [], scheduled := [] }

/-! Concrete fixtures used to evaluate the model on closed inputs. -/

/-- Sample chat message. -/
def wMsg : MessageEnvelope := { text := "hi", time := 1, kind := "chat" }

/-- Second sample chat message. -/
def wMsg2 : MessageEnvelope := { text := "yo", time := 2, kind := "chat" }

/-- Concrete provider oracle: derivation always yields key 42,
encryption prefixes the key, decryption fails exactly on "bad", every
channel send succeeds. -/
def wEnv : Env :=
  { derive := fun _ => some 42
    enc := fun k t => toString k ++ ":" ++ t
    dec := fun _ r => if r = "bad" then none else some r
    ser := fun m => m.text
    parse := fun t => some { text := t, time := 0, kind := "chat" }
    txOk := fun _ => true }

/-- Peer with an open channel and no shared key yet. -/
def peerOpenNoKey : Peer :=
  { dataChannel := some ReadyState.opened, sharedKey := none, name := "B",
    state := ConnState.chanOpen, isInitiator := true, pendingMessages := [] }

/-- Peer with an open channel and shared key 42 installed. -/
def peerEncryptedW : Peer :=
  { dataChannel := some ReadyState.opened, sharedKey := some 42, name := "A",
    state := ConnState.encrypted, isInitiator := true, pendingMessages := [] }

/-- Peer still negotiating: no channel, no key. -/
def peerConnectingW : Peer :=
  { dataChannel := none, sharedKey := none, name := "C",
    state := ConnState.connecting, isInitiator := false, pendingMessages := [] }

/-- Peer whose key is installed but whose channel has closed. -/
def peerKeyNoChan : Peer :=
  { dataChannel := some ReadyState.closed, sharedKey := some 42, name := "D",
    state := ConnState.encrypted, isInitiator := true, pendingMessages := [] }

/-- State with the given table and empty logs. -/
def st0 (l : List (String × Peer)) : RTCState :=
  { peers := l, events := [], transmitted := [], signalsOut := [], externCalls := [] }

/-! Lemmas about the Map operations. -/

@[simp]
theorem mget_mset_self (m : List (String × Peer)) (k : String) (v : Peer) :
    mget (mset m k v) k = some v := by
  induction m with
  | nil => simp [mset, mget]
  | cons e rest ih =>
      by_cases h : e.1 = k
      · simp [mset, mget, h]
      · simp [mset, mget, h, ih]

theorem mget_mset_ne (m : List (String × Peer)) (k k' : String) (v : Peer)
    (h : k' ≠ k) : mget (mset m k v) k' = mget m k' := by
  induction m with
  | nil =>
      have h0 : ¬ k = k' := fun hk => h hk.symm
      simp only [mset, mget, if_neg h0]
  | cons e rest ih =>
      by_cases he : e.1 = k
      · have h1 : ¬ e.1 = k' := fun hk => h (hk.symm.trans he)
        simp only [mset, if_pos he, mget, if_neg h1]
      · simp only [mset, if_neg he, mget]
        by_cases he' : e.1 = k'
        · simp only [if_pos he']
        · simp only [if_neg he', ih]

theorem mset_mset (m : List (String × Peer)) (k : String) (v w : Peer) :
    mset (mset m k v) k w = mset m k w := by
  induction m with
  | nil => simp [mset]
  | cons e rest ih =>
      by_cases h : e.1 = k
      · simp [mset, h]
      · simp [mset, h, ih]

theorem mset_self (m : List (String × Peer)) (k : String) (v : Peer)
    (h : mget m k = some v) : mset m k v = m := by
  induction m with
  | nil => simp [mget] at h
  | cons e rest ih =>
      by_cases he : e.1 = k
      · simp only [mget, if_pos he, Option.some.injEq] at h
        simp only [mset, if_pos he]
        obtain ⟨k0, v0⟩ := e
        simp_all
      · simp only [mget, if_neg he] at h
        simp only [mset, if_neg he, ih h]

theorem mset_length (m : List (String × Peer)) (k : String) (v : Peer)
    (h : (mget m k).isSome) : (mset m k v).length = m.length := by
  induction m with
  | nil => simp [mget] at h
  | cons e rest ih =>
      by_cases he : e.1 = k
      · simp [mset, he]
      · simp [mget, he] at h
        simp [mset, he, ih h]

@[simp]
theorem mget_mdelete_self (m : List (String × Peer)) (k : String) :
    mget (mdelete m k) k = none := by
  induction m with
  | nil => simp [mdelete, mget]
  | cons e rest ih =>
      by_cases h : e.1 = k
      · simp [mdelete, h, ih]
      · simp [mdelete, mget, h, ih]

theorem mget_of_mem_nodup (m : List (String × Peer)) (e : String × Peer)
    (hnd : (m.map Prod.fst).Nodup) (he : e ∈ m) : mget m e.1 = some e.2 := by
  induction m with
  | nil => cases he
  | cons a rest ih =>
      rcases List.mem_cons.mp he with h | h
      · subst h
        simp [mget]
      · have hne : ¬ a.1 = e.1 := by
          intro hk
          have : e.1 ∈ rest.map Prod.fst := List.mem_map_of_mem Prod.fst h
          exact (List.nodup_cons.mp (by simpa using hnd)).1 (hk ▸ this)
        have hnd' : (rest.map Prod.fst).Nodup :=
          (List.nodup_cons.mp (by simpa using hnd)).2
        simp [mget, hne, ih hnd' h]

/-! Behaviour lemmas for the send, flush and key-exchange paths. -/

/-- Flushing a queue towards a peer whose shared key is installed and
whose channel is open (with every channel send succeeding) only
appends the encrypted messages, in order, to the transmit log. -/
theorem sendEach_open (E : Env) (pid : String) (k : Nat)
    (htx : ∀ c, E.txOk c = true) :
    ∀ (msgs : List MessageEnvelope) (s : RTCState) (p : Peer),
    mget s.peers pid = some p →
    p.sharedKey = some k →
    p.dataChannel = some ReadyState.opened →
    sendEach E pid msgs s =
      { s with transmitted :=
          s.transmitted ++ msgs.map (fun mm => (pid, E.enc k (E.ser mm))) } := by
  intro msgs
  induction msgs with
  | nil => intro s p hp hk hch; simp [sendEach]
  | cons mm ms ih =>
      intro s p hp hk hch
      have hstep : (sendToPeer E s pid mm).1 =
          { s with transmitted := s.transmitted ++ [(pid, E.enc k (E.ser mm))] } := by
        simp [sendToPeer, hp, hk, hch, htx]
      have hrec := ih { s with transmitted := s.transmitted ++ [(pid, E.enc k (E.ser mm))] }
        p hp hk hch
      calc sendEach E pid (mm :: ms) s
          = sendEach E pid ms (sendToPeer E s pid mm).1 := by
            simp [sendEach]
        _ = { s with transmitted :=
              s.transmitted ++ (mm :: ms).map (fun x => (pid, E.enc k (E.ser x))) } := by
            rw [hstep, hrec]
            simp

/-- Submitting a sequence of messages to a peer without a shared key
just appends them, in order, to that peer's pending queue. -/
theorem sendEach_queue (E : Env) (pid : String) :
    ∀ (msgs : List MessageEnvelope) (s : RTCState) (p : Peer),
    mget s.peers pid = some p →
    p.sharedKey = none →
    sendEach E pid msgs s =
      { s with peers := (mset s.peers pid
          { p with pendingMessages := p.pendingMessages ++ msgs }) } := by
  intro msgs
  induction msgs with
  | nil =>
      intro s p hp hk
      have h1 : ({ p with pendingMessages := p.pendingMessages ++ [] } : Peer) = p := by
        simp
      rw [sendEach]
      simp only [List.foldl_nil, h1, mset_self s.peers pid p hp]
  | cons mm ms ih =>
      intro s p hp hk
      have hstep : (sendToPeer E s pid mm).1 =
          { s with peers := (mset s.peers pid
              { p with pendingMessages := p.pendingMessages ++ [mm] }) } := by
        simp [sendToPeer, hp, hk]
      have hrec := ih
        { s with peers := (mset s.peers pid
            { p with pendingMessages := p.pendingMessages ++ [mm] }) }
        ({ p with pendingMessages := p.pendingMessages ++ [mm] })
        (by simp) hk
      calc sendEach E pid (mm :: ms) s
          = sendEach E pid ms (sendToPeer E s pid mm).1 := by
            simp [sendEach]
        _ = { s with peers := (mset s.peers pid
              { p with pendingMessages := p.pendingMessages ++ mm :: ms }) } := by
            rw [hstep, hrec]
            simp [mset_mset]

/-- Full characterization of the key-exchange branch when the peer
exists, derivation succeeds, its channel is open and sends succeed:
key installed, state encrypted, one peer-encrypted event, the whole
queue transmitted in order, the queue cleared. -/
theorem handleKeyExchange_open (E : Env) (s : RTCState) (pid : String) (p : Peer)
    (pk k : Nat)
    (hp : mget s.peers pid = some p)
    (hd : E.derive pk = some k)
    (hch : p.dataChannel = some ReadyState.opened)
    (htx : ∀ c, E.txOk c = true) :
    handleKeyExchange E s pid (some pk) =
      { s with
        peers := (mset s.peers pid
          { p with sharedKey := some k, state := ConnState.encrypted,
                   pendingMessages := [] }),
        events := s.events ++ [Event.peerEncrypted pid p.name],
        transmitted := (s.transmitted ++
          p.pendingMessages.map (fun mm => (pid, E.enc k (E.ser mm)))) } := by
  have hflush := sendEach_open E pid k htx p.pendingMessages
    { s with
      peers := (mset s.peers pid
        { p with sharedKey := some k, state := ConnState.encrypted }),
      events := s.events ++ [Event.peerEncrypted pid p.name] }
    ({ p with sharedKey := some k, state := ConnState.encrypted })
    (by simp) rfl hch
  simp only [handleKeyExchange, hp, hd]
  rw [hflush]
  simp [mset_mset]

/-- The key-exchange branch for a peer with an empty pending queue
(and any derivable key): key installed, state encrypted, one
peer-encrypted event, nothing transmitted. -/
theorem handleKeyExchange_nopending (E : Env) (s : RTCState) (pid : String) (p : Peer)
    (pk k : Nat)
    (hp : mget s.peers pid = some p)
    (hd : E.derive pk = some k)
    (hpend : p.pendingMessages = []) :
    handleKeyExchange E s pid (some pk) =
      { s with
        peers := (mset s.peers pid
          { p with sharedKey := some k, state := ConnState.encrypted,
                   pendingMessages := [] }),
        events := s.events ++ [Event.peerEncrypted pid p.name] } := by
  simp only [handleKeyExchange, hp, hd, hpend]
  rw [show sendEach E pid []
      { s with
        peers := (mset s.peers pid
          { p with sharedKey := some k, state := ConnState.encrypted,
                   pendingMessages := [] }),
        events := s.events ++ [Event.peerEncrypted pid p.name] } =
      { s with
        peers := (mset s.peers pid
          { p with sharedKey := some k, state := ConnState.encrypted,
                   pendingMessages := [] }),
        events := s.events ++ [Event.peerEncrypted pid p.name] } from rfl]
  simp [mset_mset]

/-- Characterization of the broadcast loop over a list of table
entries with distinct keys, with NO assumption that any send
succeeds: the outcome vector gains exactly one entry per session,
each computed from that session's record alone (sendOutcome); the
transmit log gains exactly the records of the sessions that actually
transmit (txRecord); no events fire; each keyless session's queue is
extended by the message and each keyed session's record is untouched,
whatever happened to the other sessions; untouched keys are
unchanged.  A session whose send fails therefore never disturbs the
treatment of any other session. -/
theorem broadcast_go (E : Env) (m : MessageEnvelope) :
    ∀ (l : List (String × Peer)) (s : RTCState) (rs : List Bool),
    (∀ e ∈ l, mget s.peers e.1 = some e.2) →
    (l.map Prod.fst).Nodup →
    (l.foldl (fun acc ee => bstep E m acc ee.1) (s, rs)).2 =
      rs ++ l.map (fun ee => sendOutcome E m ee.2) ∧
    (l.foldl (fun acc ee => bstep E m acc ee.1) (s, rs)).1.transmitted =
      s.transmitted ++ l.filterMap (txRecord E m) ∧
    (l.foldl (fun acc ee => bstep E m acc ee.1) (s, rs)).1.events = s.events ∧
    (∀ e ∈ l, e.2.sharedKey = none →
       mget (l.foldl (fun acc ee => bstep E m acc ee.1) (s, rs)).1.peers e.1 =
         some ({ e.2 with pendingMessages := e.2.pendingMessages ++ [m] })) ∧
    (∀ e ∈ l, ∀ k, e.2.sharedKey = some k →
       mget (l.foldl (fun acc ee => bstep E m acc ee.1) (s, rs)).1.peers e.1 =
         some e.2) ∧
    (∀ pid, (∀ e ∈ l, e.1 ≠ pid) →
       mget (l.foldl (fun acc ee => bstep E m acc ee.1) (s, rs)).1.peers pid =
         mget s.peers pid) := by
  intro l
  induction l with
  | nil =>
      intro s rs _ _
      exact ⟨by simp, by simp, rfl, by simp, by simp, fun pid _ => rfl⟩
  | cons e0 l ih =>
      intro s rs hmem hnd
      have hp0 : mget s.peers e0.1 = some e0.2 := hmem e0 (List.mem_cons_self e0 l)
      have hnotin : e0.1 ∉ l.map Prod.fst := (List.nodup_cons.mp (by simpa using hnd)).1
      have hnd' : (l.map Prod.fst).Nodup := (List.nodup_cons.mp (by simpa using hnd)).2
      cases hk : e0.2.sharedKey with
      | none =>
          have hstep : bstep E m (s, rs) e0.1 =
              ({ s with peers := (mset s.peers e0.1
                  { e0.2 with pendingMessages := e0.2.pendingMessages ++ [m] }) },
               rs ++ [true]) := by
            simp [bstep, sendToPeer, hp0, hk]
          have hmem1 : ∀ e ∈ l,
              mget ({ s with peers := (mset s.peers e0.1
                  { e0.2 with pendingMessages := e0.2.pendingMessages ++ [m] }) } :
                RTCState).peers e.1 = some e.2 := by
            intro e he
            have hne : e.1 ≠ e0.1 := by
              intro hq
              exact hnotin (hq ▸ List.mem_map_of_mem Prod.fst he)
            simpa [mget_mset_ne _ _ _ _ hne] using hmem e (List.mem_cons_of_mem e0 he)
          obtain ⟨ih1, ih2, ih3, ih4, ih5, ih6⟩ := ih
            ({ s with peers := (mset s.peers e0.1
                { e0.2 with pendingMessages := e0.2.pendingMessages ++ [m] }) })
            (rs ++ [true]) hmem1 hnd'
          rw [List.foldl_cons, hstep]
          refine ⟨?_, ?_, by simpa using ih3, ?_, ?_, ?_⟩
          · rw [ih1]
            simp [sendOutcome, hk]
          · rw [ih2]
            simp [List.filterMap_cons, txRecord, hk]
          · intro e he hek
            rcases List.mem_cons.mp he with he0 | hel
            · subst he0
              have hall : ∀ f ∈ l, f.1 ≠ e.1 := by
                intro f hf hq
                exact hnotin (hq ▸ List.mem_map_of_mem Prod.fst hf)
              rw [ih6 e.1 hall]
              simp
            · exact ih4 e hel hek
          · intro e he k2 hek
            rcases List.mem_cons.mp he with he0 | hel
            · subst he0
              rw [hek] at hk
              cases hk
            · exact ih5 e hel k2 hek
          · intro pid hall
            have h1 := ih6 pid (fun f hf => hall f (List.mem_cons_of_mem e0 hf))
            rw [h1]
            exact mget_mset_ne _ _ _ _ (fun hq => hall e0 (List.mem_cons_self e0 l) hq.symm)
      | some k =>
          have hstep : bstep E m (s, rs) e0.1 =
              ({ s with transmitted := s.transmitted ++ (txRecord E m e0).toList },
               rs ++ [sendOutcome E m e0.2]) := by
            by_cases hco : e0.2.dataChannel = some ReadyState.opened
            · cases htx0 : E.txOk (E.enc k (E.ser m)) with
              | true =>
                  simp [bstep, sendToPeer, hp0, hk, hco, htx0, txRecord, sendOutcome]
              | false =>
                  simp [bstep, sendToPeer, hp0, hk, hco, htx0, txRecord, sendOutcome]
            · simp [bstep, sendToPeer, hp0, hk, hco, txRecord, sendOutcome]
          have hmem1 : ∀ e ∈ l,
              mget ({ s with transmitted := s.transmitted ++ (txRecord E m e0).toList } :
                RTCState).peers e.1 = some e.2 :=
            fun e he => hmem e (List.mem_cons_of_mem e0 he)
          obtain ⟨ih1, ih2, ih3, ih4, ih5, ih6⟩ := ih
            ({ s with transmitted := s.transmitted ++ (txRecord E m e0).toList })
            (rs ++ [sendOutcome E m e0.2]) hmem1 hnd'
          rw [List.foldl_cons, hstep]
          refine ⟨by simpa using ih1, ?_, by simpa using ih3, ?_, ?_, ?_⟩
          · rw [ih2]
            cases hr : txRecord E m e0 <;> simp [List.filterMap_cons, hr]
          · intro e he hek
            rcases List.mem_cons.mp he with he0 | hel
            · subst he0
              rw [hek] at hk
              cases hk
            · exact ih4 e hel hek
          · intro e he k2 hek
            rcases List.mem_cons.mp he with he0 | hel
            · subst he0
              have hall : ∀ f ∈ l, f.1 ≠ e.1 := by
                intro f hf hq
                exact hnotin (hq ▸ List.mem_map_of_mem Prod.fst hf)
              rw [ih6 e.1 hall]
              exact hp0
            · exact ih5 e hel k2 hek
          · intro pid hall
            exact ih6 pid (fun f hf => hall f (List.mem_cons_of_mem e0 hf))

/-- Under open channels and an accepting transport, the sessions that
transmit during a broadcast are exactly those holding a shared
key. -/
theorem filterMap_txRecord_length (E : Env) (m : MessageEnvelope)
    (l : List (String × Peer))
    (hch : ∀ e ∈ l, e.2.dataChannel = some ReadyState.opened)
    (htx : ∀ c, E.txOk c = true) :
    (l.filterMap (txRecord E m)).length =
      (l.filter (fun ee => ee.2.sharedKey.isSome)).length := by
  induction l with
  | nil => rfl
  | cons e l ih =>
      have hche := hch e (List.mem_cons_self e l)
      have ihh := ih (fun f hf => hch f (List.mem_cons_of_mem e hf))
      cases hk : e.2.sharedKey with
      | none => simp [List.filterMap_cons, txRecord, hk, ihh]
      | some k => simp [List.filterMap_cons, txRecord, hk, hche, htx, ihh]

/-- Closed form of iterating attemptReconnect from a fresh signaling
state: the first MAX_RECONNECT calls schedule one reconnect each at
the fixed delay; every call after that only emits a failed status. -/
theorem attemptReconnect_iter (n : Nat) :
    attemptReconnect^[n] sigInit =
      if n ≤ MAX_RECONNECT then
        { reconnectAttempts := n, statuses := [],
          scheduled := List.replicate n RECONNECT_DELAY }
      else
        { reconnectAttempts := MAX_RECONNECT,
          statuses := List.replicate (n - MAX_RECONNECT) SigStatus.failed,
          scheduled := List.replicate MAX_RECONNECT RECONNECT_DELAY } := by
  induction n with
  | zero => simp [sigInit, MAX_RECONNECT]
  | succ n ih =>
      rw [Function.iterate_succ_apply', ih]
      by_cases h1 : n + 1 ≤ MAX_RECONNECT
      · have h0 : n ≤ MAX_RECONNECT := Nat.le_of_succ_le h1
        have hlt : ¬ MAX_RECONNECT ≤ n := by omega
        simp [h0, h1, attemptReconnect, hlt, List.replicate_succ']
      · by_cases h0 : n ≤ MAX_RECONNECT
        · have hn : n = MAX_RECONNECT := by omega
          subst hn
          simp [h1, attemptReconnect]
        · have hge : MAX_RECONNECT ≤ MAX_RECONNECT := le_refl _
          have hsub : n + 1 - MAX_RECONNECT = (n - MAX_RECONNECT) + 1 := by omega
          simp [h0, h1, attemptReconnect, hsub, List.replicate_succ']

/-- The key-exchange arm of handleSignal is handleKeyExchange. -/
@[simp]
theorem handleSignal_keyExchange (E : Env) (s : RTCState) (pid nm : String)
    (pub : Option Nat) :
    handleSignal E s pid nm (Signal.keyExchange pub) = handleKeyExchange E s pid pub := rfl

/-! Claims. -/

/-- C1 (counterexample): two identical key-exchange control frames for
one peer.  The claim says the second is ignored, with no second
encryption-established event; in the code the key-exchange branch has
no guard on sharedKey already being set, so the second frame emits a
second peer-encrypted event. -/
theorem C1_cex :
    (handleSignal wEnv (st0 [("p", peerOpenNoKey)]) "p" "B"
        (Signal.keyExchange (some 7))).events = [Event.peerEncrypted "p" "B"] ∧
    (handleSignal wEnv
        (handleSignal wEnv (st0 [("p", peerOpenNoKey)]) "p" "B"
          (Signal.keyExchange (some 7)))
        "p" "B" (Signal.keyExchange (some 7))).events =
      [Event.peerEncrypted "p" "B", Event.peerEncrypted "p" "B"] := by
  decide

/-- C1 (amended): a key-exchange frame for a peer whose shared key is
already set (whose queue is therefore empty) is not ignored: the key
is re-derived and re-assigned, the session re-marked encrypted, and a
second encryption-established event is emitted; no error is raised
and the table keeps exactly that one updated entry. -/
theorem C1_thm (E : Env) (s : RTCState) (pid nm : String) (p : Peer) (pk k k0 : Nat)
    (hp : mget s.peers pid = some p)
    (hk0 : p.sharedKey = some k0)
    (hpend : p.pendingMessages = [])
    (hd : E.derive pk = some k) :
    handleSignal E s pid nm (Signal.keyExchange (some pk)) =
      { s with
        peers := (mset s.peers pid
          { p with sharedKey := some k, state := ConnState.encrypted,
                   pendingMessages := [] }),
        events := s.events ++ [Event.peerEncrypted pid p.name] } := by
  rw [handleSignal_keyExchange]
  exact handleKeyExchange_nopending E s pid p pk k hp hd hpend

/-- C1 (witness): C1_thm applied to a concrete session that already
holds key 42 when the duplicate frame arrives. -/
theorem C1_w :
    handleSignal wEnv (st0 [("p", peerEncryptedW)]) "p" "B"
        (Signal.keyExchange (some 7)) =
      { st0 [("p", peerEncryptedW)] with
        peers := (mset (st0 [("p", peerEncryptedW)]).peers "p"
          { peerEncryptedW with sharedKey := some 42, state := ConnState.encrypted,
                                pendingMessages := [] }),
        events := (st0 [("p", peerEncryptedW)]).events ++
          [Event.peerEncrypted "p" peerEncryptedW.name] } :=
  C1_thm wEnv (st0 [("p", peerEncryptedW)]) "p" "B" peerEncryptedW 7 42 42
    (by decide) rfl rfl rfl

/-- C2 (counterexample): a session whose state is connecting (neither
channel-open nor encrypted).  The claim says send fails with a
ChannelUnavailable-style negative result; the code keys off sharedKey
only, so it queues the message and reports true. -/
theorem C2_cex :
    peerConnectingW.state = ConnState.connecting ∧
    (sendToPeer wEnv (st0 [("p", peerConnectingW)]) "p" wMsg).2 = true ∧
    (sendToPeer wEnv (st0 [("p", peerConnectingW)]) "p" wMsg).1.peers =
      [("p", { peerConnectingW with pendingMessages := [wMsg] })] := by
  decide

/-- C2 (amended): send ignores the session's state field.  For a
present peer: no shared key means the message is queued and true
returned, whatever the channel state; with a shared key, a missing or
non-open channel returns false with the state unchanged; with an open
channel the serialized message is encrypted and transmitted, and true
is returned, or false (state unchanged) when the transmission
throws. -/
theorem C2_thm (E : Env) (s : RTCState) (pid : String) (m : MessageEnvelope) (p : Peer)
    (hp : mget s.peers pid = some p) :
    (p.sharedKey = none →
       sendToPeer E s pid m =
         ({ s with peers := (mset s.peers pid
             { p with pendingMessages := p.pendingMessages ++ [m] }) }, true)) ∧
    (∀ k, p.sharedKey = some k → p.dataChannel ≠ some ReadyState.opened →
       sendToPeer E s pid m = (s, false)) ∧
    (∀ k, p.sharedKey = some k → p.dataChannel = some ReadyState.opened →
       E.txOk (E.enc k (E.ser m)) = true →
       sendToPeer E s pid m =
         ({ s with transmitted := s.transmitted ++ [(pid, E.enc k (E.ser m))] }, true)) ∧
    (∀ k, p.sharedKey = some k → p.dataChannel = some ReadyState.opened →
       E.txOk (E.enc k (E.ser m)) = false →
       sendToPeer E s pid m = (s, false)) := by
  refine ⟨?_, ?_, ?_, ?_⟩
  · intro hk
    simp [sendToPeer, hp, hk]
  · intro k hk hch
    simp [sendToPeer, hp, hk, hch]
  · intro k hk hch htx
    simp [sendToPeer, hp, hk, hch, htx]
  · intro k hk hch htx
    simp [sendToPeer, hp, hk, hch, htx]

/-- C2 (witness): the queue case of C2_thm at a concrete connecting
session. -/
theorem C2_w :
    sendToPeer wEnv (st0 [("p", peerConnectingW)]) "p" wMsg =
      ({ st0 [("p", peerConnectingW)] with
         peers := (mset (st0 [("p", peerConnectingW)]).peers "p"
           { peerConnectingW with
             pendingMessages := peerConnectingW.pendingMessages ++ [wMsg] }) }, true) :=
  (C2_thm wEnv (st0 [("p", peerConnectingW)]) "p" wMsg peerConnectingW (by decide)).1 rfl

/-- C3: messages submitted while a session is not yet encrypted are
queued; when the peer's key-exchange frame is processed the key is
derived and installed, the session marked encrypted (one
encryption-established event), and the queue is flushed: the
transmit log gains exactly the submitted messages, encrypted in their
original submission order, and the pending queue ends empty. -/
theorem C3_thm (E : Env) (s : RTCState) (pid : String) (p : Peer)
    (msgs : List MessageEnvelope) (pk k : Nat)
    (hp : mget s.peers pid = some p)
    (hk : p.sharedKey = none)
    (hch : p.dataChannel = some ReadyState.opened)
    (hpend : p.pendingMessages = [])
    (hd : E.derive pk = some k)
    (htx : ∀ c, E.txOk c = true) :
    (handleSignal E (sendEach E pid msgs s) pid p.name
        (Signal.keyExchange (some pk))).transmitted =
      s.transmitted ++ msgs.map (fun mm => (pid, E.enc k (E.ser mm))) ∧
    mget (handleSignal E (sendEach E pid msgs s) pid p.name
        (Signal.keyExchange (some pk))).peers pid =
      some ({ p with sharedKey := some k, state := ConnState.encrypted,
                     pendingMessages := [] }) ∧
    (handleSignal E (sendEach E pid msgs s) pid p.name
        (Signal.keyExchange (some pk))).events =
      s.events ++ [Event.peerEncrypted pid p.name] := by
  have hsub := sendEach_queue E pid msgs s p hp hk
  have hopen := handleKeyExchange_open E
    ({ s with peers := (mset s.peers pid
        { p with pendingMessages := p.pendingMessages ++ msgs }) })
    pid ({ p with pendingMessages := p.pendingMessages ++ msgs }) pk k
    (by simp) hd hch htx
  rw [hsub, handleSignal_keyExchange, hopen]
  refine ⟨by simp [hpend], by simp [mset_mset], by simp⟩

/-- C3 (witness): two messages submitted before encryption are
transmitted in order once the key-exchange frame is processed. -/
theorem C3_w :
    (handleSignal wEnv (sendEach wEnv "p" [wMsg, wMsg2] (st0 [("p", peerOpenNoKey)]))
        "p" peerOpenNoKey.name (Signal.keyExchange (some 7))).transmitted =
      (st0 [("p", peerOpenNoKey)]).transmitted ++
        [wMsg, wMsg2].map (fun mm => ("p", wEnv.enc 42 (wEnv.ser mm))) ∧
    mget (handleSignal wEnv (sendEach wEnv "p" [wMsg, wMsg2] (st0 [("p", peerOpenNoKey)]))
        "p" peerOpenNoKey.name (Signal.keyExchange (some 7))).peers "p" =
      some ({ peerOpenNoKey with sharedKey := some 42, state := ConnState.encrypted,
                                  pendingMessages := [] }) ∧
    (handleSignal wEnv (sendEach wEnv "p" [wMsg, wMsg2] (st0 [("p", peerOpenNoKey)]))
        "p" peerOpenNoKey.name (Signal.keyExchange (some 7))).events =
      (st0 [("p", peerOpenNoKey)]).events ++ [Event.peerEncrypted "p" peerOpenNoKey.name] :=
  C3_thm wEnv (st0 [("p", peerOpenNoKey)]) "p" peerOpenNoKey [wMsg, wMsg2] 7 42
    (by decide) rfl rfl rfl rfl (fun _ => rfl)

/-- C5: tearing down a present session removes it from the table and
emits exactly one disconnected notification; a second teardown
trigger for the same peer id changes nothing and emits nothing. -/
theorem C5_thm (s : RTCState) (pid : String) (p : Peer)
    (hp : mget s.peers pid = some p) :
    mget (handlePeerDisconnect s pid).peers pid = none ∧
    (handlePeerDisconnect s pid).events =
      s.events ++ [Event.peerDisconnected pid p.name] ∧
    handlePeerDisconnect (handlePeerDisconnect s pid) pid = handlePeerDisconnect s pid := by
  refine ⟨?_, ?_, ?_⟩
  · simp [handlePeerDisconnect, hp]
  · simp [handlePeerDisconnect, hp]
  · simp [handlePeerDisconnect, hp]

/-- C5 (witness): C5_thm at a concrete one-entry table, hit twice. -/
theorem C5_w :
    mget (handlePeerDisconnect (st0 [("a", peerEncryptedW)]) "a").peers "a" = none ∧
    (handlePeerDisconnect (st0 [("a", peerEncryptedW)]) "a").events =
      (st0 [("a", peerEncryptedW)]).events ++
        [Event.peerDisconnected "a" peerEncryptedW.name] ∧
    handlePeerDisconnect (handlePeerDisconnect (st0 [("a", peerEncryptedW)]) "a") "a" =
      handlePeerDisconnect (st0 [("a", peerEncryptedW)]) "a" :=
  C5_thm (st0 [("a", peerEncryptedW)]) "a" peerEncryptedW (by decide)

/-- C6: disconnectPeer on an absent id is a no-op and is idempotent
in general; disconnectAll is a no-op on an empty table, is
idempotent, and always leaves the roster query empty. -/
theorem C6_thm (s : RTCState) (pid : String) :
    (mget s.peers pid = none → disconnectPeer s pid = s) ∧
    disconnectPeer (disconnectPeer s pid) pid = disconnectPeer s pid ∧
    (s.peers = [] → disconnectAll s = s) ∧
    disconnectAll (disconnectAll s) = disconnectAll s ∧
    getPeerList (disconnectAll s) = [] := by
  refine ⟨?_, ?_, ?_, ?_, ?_⟩
  · intro h
    simp [disconnectPeer, handlePeerDisconnect, h]
  · cases hmg : mget s.peers pid with
    | none => simp [disconnectPeer, handlePeerDisconnect, hmg]
    | some p => simp [disconnectPeer, handlePeerDisconnect, hmg]
  · intro h
    obtain ⟨pe, ev, tr, sg, ex⟩ := s
    have h1 : pe = [] := h
    subst h1
    rfl
  · rfl
  · rfl

/-- C6 (witness): C6_thm on an empty table (absent id, empty-table
no-op) and on a one-entry table (idempotence and empty roster). -/
theorem C6_w :
    disconnectPeer (st0 []) "z" = st0 [] ∧
    disconnectAll (st0 []) = st0 [] ∧
    disconnectPeer (disconnectPeer (st0 [("a", peerEncryptedW)]) "a") "a" =
      disconnectPeer (st0 [("a", peerEncryptedW)]) "a" ∧
    disconnectAll (disconnectAll (st0 [("a", peerEncryptedW)])) =
      disconnectAll (st0 [("a", peerEncryptedW)]) ∧
    getPeerList (disconnectAll (st0 [("a", peerEncryptedW)])) = [] :=
  ⟨(C6_thm (st0 []) "z").1 (by decide),
   (C6_thm (st0 []) "z").2.2.1 rfl,
   (C6_thm (st0 [("a", peerEncryptedW)]) "a").2.1,
   (C6_thm (st0 [("a", peerEncryptedW)]) "a").2.2.2.1,
   (C6_thm (st0 [("a", peerEncryptedW)]) "a").2.2.2.2⟩

/-- C8: a failed decryption of an application frame on an encrypted
session leaves the whole state unchanged (session still present, key,
state and queue intact, no event, no teardown), and the dispatcher
still processes a subsequent well-formed frame into a message
event. -/
theorem C8_thm (E : Env) (s : RTCState) (pid : String) (p : Peer) (k : Nat)
    (raw : String)
    (hp : mget s.peers pid = some p)
    (hk : p.sharedKey = some k)
    (hdec : E.dec k raw = none) :
    onDataMessage E s pid (Frame.appData raw) = s ∧
    (∀ raw2 pt msg, E.dec k raw2 = some pt → E.parse pt = some msg →
       (onDataMessage E s pid (Frame.appData raw2)).events =
         s.events ++ [Event.message pid p.name msg]) := by
  refine ⟨?_, ?_⟩
  · simp [onDataMessage, hp, hk, hdec]
  · intro raw2 pt msg hdec2 hparse
    simp [onDataMessage, hp, hk, hdec2, hparse]

/-- C8 (witness): a frame that fails authentication is dropped with
the state unchanged; a good frame afterwards is delivered. -/
theorem C8_w :
    onDataMessage wEnv (st0 [("p", peerEncryptedW)]) "p" (Frame.appData "bad") =
      st0 [("p", peerEncryptedW)] ∧
    (onDataMessage wEnv (st0 [("p", peerEncryptedW)]) "p" (Frame.appData "ok")).events =
      (st0 [("p", peerEncryptedW)]).events ++
        [Event.message "p" peerEncryptedW.name { text := "ok", time := 0, kind := "chat" }] :=
  ⟨(C8_thm wEnv (st0 [("p", peerEncryptedW)]) "p" peerEncryptedW 42 "bad"
      (by decide) rfl (by decide)).1,
   (C8_thm wEnv (st0 [("p", peerEncryptedW)]) "p" peerEncryptedW 42 "bad"
      (by decide) rfl (by decide)).2
     "ok" "ok" { text := "ok", time := 0, kind := "chat" } (by decide) rfl⟩

/-- C9: every operation aimed at a peer id that is not in the table —
send, an answer signal, a connectivity-candidate signal, a
key-exchange frame, an incoming channel message — leaves the state
unchanged and reports a negative result where one exists, raising no
error. -/
theorem C9_thm (E : Env) (s : RTCState) (pid nm : String) (m : MessageEnvelope)
    (a : Nat) (c pub : Option Nat) (f : Frame)
    (hp : mget s.peers pid = none) :
    sendToPeer E s pid m = (s, false) ∧
    handleSignal E s pid nm (Signal.answer a) = s ∧
    handleSignal E s pid nm (Signal.iceCandidate c) = s ∧
    handleSignal E s pid nm (Signal.keyExchange pub) = s ∧
    onDataMessage E s pid f = s := by
  refine ⟨?_, ?_, ?_, ?_, ?_⟩
  · simp [sendToPeer, hp]
  · simp [handleSignal, hp]
  · cases c <;> simp [handleSignal, hp]
  · cases pub <;> simp [handleSignal, handleKeyExchange, hp]
  · simp [onDataMessage, hp]

/-- C9 (witness): C9_thm against a table that holds a different peer
only. -/
theorem C9_w :
    sendToPeer wEnv (st0 [("a", peerEncryptedW)]) "z" wMsg =
      (st0 [("a", peerEncryptedW)], false) ∧
    handleSignal wEnv (st0 [("a", peerEncryptedW)]) "z" "Z" (Signal.answer 0) =
      st0 [("a", peerEncryptedW)] ∧
    handleSignal wEnv (st0 [("a", peerEncryptedW)]) "z" "Z" (Signal.iceCandidate (some 1)) =
      st0 [("a", peerEncryptedW)] ∧
    handleSignal wEnv (st0 [("a", peerEncryptedW)]) "z" "Z" (Signal.keyExchange (some 7)) =
      st0 [("a", peerEncryptedW)] ∧
    onDataMessage wEnv (st0 [("a", peerEncryptedW)]) "z" (Frame.appData "x") =
      st0 [("a", peerEncryptedW)] :=
  C9_thm wEnv (st0 [("a", peerEncryptedW)]) "z" "Z" wMsg 0 (some 1) (some 7)
    (Frame.appData "x") (by decide)

/-- C10: a session whose shared key is set but whose data channel is
missing or not open makes send return false with the state unchanged:
the message is neither transmitted nor queued. -/
theorem C10_thm (E : Env) (s : RTCState) (pid : String) (m : MessageEnvelope)
    (p : Peer) (k : Nat)
    (hp : mget s.peers pid = some p)
    (hk : p.sharedKey = some k)
    (hch : p.dataChannel ≠ some ReadyState.opened) :
    sendToPeer E s pid m = (s, false) := by
  simp [sendToPeer, hp, hk, hch]

/-- C10 (witness): C10_thm at a session whose channel has closed. -/
theorem C10_w :
    sendToPeer wEnv (st0 [("d", peerKeyNoChan)]) "d" wMsg =
      (st0 [("d", peerKeyNoChan)], false) :=
  C10_thm wEnv (st0 [("d", peerKeyNoChan)]) "d" wMsg peerKeyNoChan 42
    (by decide) rfl (by decide)

/-- C4: broadcast over a table with distinct keys.  Without assuming
any send succeeds: the outcome vector has exactly one entry per
session, and every entry, every queued message and every kept record
is a function of that session alone — a failure for one peer never
aborts or disturbs the delivery attempts to the others (keyless
sessions still get the message queued; keyed sessions keep their
record whether their transmission succeeded or failed); the transmit
log gains exactly the records of the sessions that transmit.  When
every channel is open and the transport accepts every frame, that is
exactly M immediate transmissions for the M keyed sessions; and a
message queued at a keyless session with an open channel is
transmitted once that peer's key-exchange frame is later processed —
none are lost. -/
theorem C4_thm (E : Env) (s : RTCState) (m : MessageEnvelope)
    (hnd : (s.peers.map Prod.fst).Nodup) :
    (broadcast E s m).2.length = s.peers.length ∧
    (broadcast E s m).2 = s.peers.map (fun ee => sendOutcome E m ee.2) ∧
    (broadcast E s m).1.transmitted =
      s.transmitted ++ s.peers.filterMap (txRecord E m) ∧
    (∀ e ∈ s.peers, e.2.sharedKey = none →
       mget (broadcast E s m).1.peers e.1 =
         some ({ e.2 with pendingMessages := e.2.pendingMessages ++ [m] })) ∧
    (∀ e ∈ s.peers, ∀ k, e.2.sharedKey = some k →
       mget (broadcast E s m).1.peers e.1 = some e.2) ∧
    ((∀ e ∈ s.peers, e.2.dataChannel = some ReadyState.opened) →
     (∀ c, E.txOk c = true) →
       (broadcast E s m).1.transmitted.length =
         s.transmitted.length +
           (s.peers.filter (fun ee => ee.2.sharedKey.isSome)).length) ∧
    (∀ e ∈ s.peers, e.2.sharedKey = none →
       e.2.dataChannel = some ReadyState.opened →
       (∀ c, E.txOk c = true) → ∀ pk k, E.derive pk = some k →
       (e.1, E.enc k (E.ser m)) ∈
         (handleSignal E (broadcast E s m).1 e.1 e.2.name
            (Signal.keyExchange (some pk))).transmitted) := by
  have hfold : broadcast E s m =
      s.peers.foldl (fun acc ee => bstep E m acc ee.1) (s, []) := by
    simp [broadcast, List.foldl_map]
  have hmem : ∀ e ∈ s.peers, mget s.peers e.1 = some e.2 :=
    fun e he => mget_of_mem_nodup s.peers e hnd he
  obtain ⟨h1, h2, h3, h4, h5, h6⟩ := broadcast_go E m s.peers s [] hmem hnd
  rw [hfold]
  refine ⟨?_, ?_, ?_, ?_, ?_, ?_, ?_⟩
  · rw [h1]
    simp
  · rw [h1]
    simp
  · exact h2
  · exact h4
  · exact h5
  · intro hch htx
    rw [h2]
    simp [filterMap_txRecord_length E m s.peers hch htx]
  · intro e he hek hco htx pk k hd
    have hq := h4 e he hek
    have hopen := handleKeyExchange_open E
      (s.peers.foldl (fun acc ee => bstep E m acc ee.1) (s, [])).1
      e.1 ({ e.2 with pendingMessages := e.2.pendingMessages ++ [m] }) pk k
      hq hd hco htx
    rw [handleSignal_keyExchange, hopen]
    have hm : m ∈ e.2.pendingMessages ++ [m] := by simp
    simpa using Or.inr (List.mem_map_of_mem
      (fun mm => (e.1, E.enc k (E.ser mm))) hm)

/-- C4 (witness): broadcast to a table holding an encrypted peer, a
peer whose send FAILS (key set, channel closed), and an unencrypted
peer: three outcomes [true, false, true], the failing middle peer
aborting nothing — the first peer transmits, the third still gets the
message queued and receives it on its later key exchange, and the
failed peer's record is untouched; a second all-open table witnesses
the M-transmissions count. -/
theorem C4_w :
    (broadcast wEnv (st0 [("a", peerEncryptedW), ("d", peerKeyNoChan), ("b", peerOpenNoKey)])
        wMsg).2.length =
      (st0 [("a", peerEncryptedW), ("d", peerKeyNoChan), ("b", peerOpenNoKey)]).peers.length ∧
    (broadcast wEnv (st0 [("a", peerEncryptedW), ("d", peerKeyNoChan), ("b", peerOpenNoKey)])
        wMsg).2 = [true, false, true] ∧
    (broadcast wEnv (st0 [("a", peerEncryptedW), ("d", peerKeyNoChan), ("b", peerOpenNoKey)])
        wMsg).1.transmitted = [("a", "42:hi")] ∧
    mget (broadcast wEnv (st0 [("a", peerEncryptedW), ("d", peerKeyNoChan), ("b", peerOpenNoKey)])
        wMsg).1.peers "b" =
      some ({ peerOpenNoKey with
              pendingMessages := peerOpenNoKey.pendingMessages ++ [wMsg] }) ∧
    mget (broadcast wEnv (st0 [("a", peerEncryptedW), ("d", peerKeyNoChan), ("b", peerOpenNoKey)])
        wMsg).1.peers "d" = some peerKeyNoChan ∧
    ("b", wEnv.enc 42 (wEnv.ser wMsg)) ∈
      (handleSignal wEnv
        (broadcast wEnv (st0 [("a", peerEncryptedW), ("d", peerKeyNoChan), ("b", peerOpenNoKey)])
          wMsg).1
        "b" peerOpenNoKey.name (Signal.keyExchange (some 7))).transmitted ∧
    (broadcast wEnv (st0 [("a", peerEncryptedW), ("b", peerOpenNoKey)]) wMsg).1.transmitted.length =
      (st0 [("a", peerEncryptedW), ("b", peerOpenNoKey)]).transmitted.length +
        ((st0 [("a", peerEncryptedW), ("b", peerOpenNoKey)]).peers.filter
          (fun ee => ee.2.sharedKey.isSome)).length := by
  have h := C4_thm wEnv
    (st0 [("a", peerEncryptedW), ("d", peerKeyNoChan), ("b", peerOpenNoKey)]) wMsg (by decide)
  have h2 := C4_thm wEnv (st0 [("a", peerEncryptedW), ("b", peerOpenNoKey)]) wMsg (by decide)
  exact ⟨h.1,
         h.2.1.trans (by decide),
         h.2.2.1.trans (by decide),
         h.2.2.2.1 ("b", peerOpenNoKey) (by decide) rfl,
         h.2.2.2.2.1 ("d", peerKeyNoChan) (by decide) 42 rfl,
         h.2.2.2.2.2.2 ("b", peerOpenNoKey) (by decide) rfl rfl (fun _ => rfl) 7 42 rfl,
         h2.2.2.2.2.2.1 (by decide) (fun _ => rfl)⟩

/-- C7: after a signaling drop, reconnection is scheduled at the
fixed delay at most MAX_RECONNECT (5) times: n teardown triggers
leave min n 5 scheduled attempts, and once the bound is exceeded the
failed status is surfaced and the scheduled list never grows past the
5th attempt. -/
theorem C7_thm (n : Nat) :
    (attemptReconnect^[n] sigInit).scheduled =
      List.replicate (min n MAX_RECONNECT) RECONNECT_DELAY ∧
    (MAX_RECONNECT < n →
       SigStatus.failed ∈ (attemptReconnect^[n] sigInit).statuses ∧
       (attemptReconnect^[n] sigInit).scheduled =
         (attemptReconnect^[MAX_RECONNECT] sigInit).scheduled) := by
  have h := attemptReconnect_iter n
  have h5 := attemptReconnect_iter MAX_RECONNECT
  by_cases hn : n ≤ MAX_RECONNECT
  · constructor
    · rw [h, if_pos hn, Nat.min_eq_left hn]
    · intro hlt
      exact absurd hlt (by omega)
  · have h5n : MAX_RECONNECT ≤ n := Nat.le_of_not_le hn
    constructor
    · rw [h, if_neg hn, Nat.min_eq_right h5n]
    · intro hlt
      constructor
      · rw [h, if_neg hn]
        simp [List.mem_replicate]
        omega
      · rw [h, if_neg hn, h5, if_pos (le_refl MAX_RECONNECT)]

/-- C7 (witness): seven triggers give five scheduled attempts, a
failed status, and no growth past the fifth attempt. -/
theorem C7_w :
    (attemptReconnect^[7] sigInit).scheduled =
      List.replicate (min 7 MAX_RECONNECT) RECONNECT_DELAY ∧
    (SigStatus.failed ∈ (attemptReconnect^[7] sigInit).statuses ∧
     (attemptReconnect^[7] sigInit).scheduled =
       (attemptReconnect^[MAX_RECONNECT] sigInit).scheduled) :=
  ⟨(C7_thm 7).1, (C7_thm 7).2 (by decide)⟩

end Morph
